import Mathlib

/-!
Shallow embedding of the URL registry in `src/services/urlService.js`
(class `URLService`): URL/shortcode validation, shortcode generation,
record creation, resolution with click recording, expiry cleanup, and
the localStorage persistence round-trip.

Conventions of the embedding:
* JavaScript `Map`s are insertion-ordered association lists with unique
  keys (`Map.prototype.set` replaces in place, `delete` removes the one
  entry); `Set`s are insertion-ordered duplicate-free lists.
* Timestamps are milliseconds since the Unix epoch (`Nat`).  A value of
  type `JsTime` is either a live `Date` object or the plain string that
  `JSON.parse` yields for a serialized `Date`.
* `Math.floor(Math.random() * 62)` always lands in `[0, 62)`, so the
  random source is a stream `Nat → Fin 62`.
* The browser's `URL` constructor (`new URL(url)`) is a platform API,
  not repository code; it is abstracted as a predicate `parseOk`.
-/

namespace UrlService

/-! ## Time values -/

/-- A JavaScript value holding a timestamp: a `Date` object (milliseconds
since the epoch), or a plain string — which is what `JSON.parse` produces
for a `Date` that went through `JSON.stringify` (`Date.prototype.toJSON`
serializes to the ISO-8601 string). -/
inductive JsTime where
  | dateVal (ms : Nat)
  | strVal (s : String)
deriving DecidableEq, Repr

def pad2 (n : Nat) : String :=
  if n < 10 then "0" ++ toString n else toString n

def pad3 (n : Nat) : String :=
  if n < 10 then "00" ++ toString n
  else if n < 100 then "0" ++ toString n
  else toString n

def pad4 (n : Nat) : String :=
  if n < 10 then "000" ++ toString n
  else if n < 100 then "00" ++ toString n
  else if n < 1000 then "0" ++ toString n
  else toString n

/-- Gregorian civil date from a count of days since 1970-01-01
(Howard Hinnant's `civil_from_days`, restricted to nonnegative days). -/
def civilFromDays (z : Nat) : Nat × Nat × Nat :=
  let z' := z + 719468
  let era := z' / 146097
  let doe := z' % 146097
  let yoe := (doe - doe / 1460 + doe / 36524 - doe / 146097) / 365
  let y := yoe + era * 400
  let doy := doe - (365 * yoe + yoe / 4 - yoe / 100)
  let mp := (5 * doy + 2) / 153
  let d := doy - (153 * mp + 2) / 5 + 1
  let m := if mp < 10 then mp + 3 else mp - 9
  (if m ≤ 2 then y + 1 else y, m, d)

/-- `Date.prototype.toISOString` for a nonnegative millisecond timestamp:
the `YYYY-MM-DDTHH:MM:SS.sssZ` rendering used by `JSON.stringify` on a
`Date` object. -/
def isoOfMs (ms : Nat) : String :=
  let days := ms / 86400000
  let rem := ms % 86400000
  let ymd := civilFromDays days
  pad4 ymd.1 ++ "-" ++ pad2 ymd.2.1 ++ "-" ++ pad2 ymd.2.2 ++ "T" ++
    pad2 (rem / 3600000) ++ ":" ++ pad2 (rem % 3600000 / 60000) ++ ":" ++
    pad2 (rem % 60000 / 1000) ++ "." ++ pad3 (rem % 1000) ++ "Z"

def isDigitChar (c : Char) : Bool := '0' ≤ c && c ≤ '9'

def digitsToNat (l : List Char) : Nat :=
  l.foldl (fun a c => 10 * a + (c.toNat - 48)) 0

/-- JavaScript `ToNumber` on the strings the registry actually compares
(ISO-8601 date strings, which contain `-`, `T` and `Z` and therefore
convert to `NaN`): a nonempty all-digit string converts to its value,
anything else to `NaN` (`none`). -/
def parseDigits (s : String) : Option Nat :=
  if s ≠ "" && s.toList.all isDigitChar then some (digitsToNat s.toList) else none

/-- The JavaScript comparison `now > t` where `now` is a `Date` object and
`t` is a `JsTime`: `Date > Date` compares millisecond values; `Date > String`
converts the string with `ToNumber`, and any comparison with `NaN` is false. -/
def jsGtTime (nowMs : Nat) : JsTime → Bool
  | .dateVal ms => decide (ms < nowMs)
  | .strVal s =>
      match parseDigits s with
      | some n => decide (n < nowMs)
      | none => false

/-! ## Validation (`validateURL`, `validateShortcode`) -/

/-- Characters the regex metacharacter `.` does not match in JavaScript
(no `s` flag): LF, CR, U+2028, U+2029. -/
def isJsLineTerm (c : Char) : Bool :=
  c = Char.ofNat 10 || c = Char.ofNat 13 ||
  c = Char.ofNat 0x2028 || c = Char.ofNat 0x2029

/-- String `s` begins with the literal `pre` (JavaScript
`String.prototype.startsWith`, compared character by character). -/
def jsBeginsWith (pre s : String) : Bool :=
  pre.toList.isPrefixOf s.toList

/-- True when the tail of the input after `http://` or `https://` starts
with a character that `.` can match. -/
def hasDotMatchableHead (t : List Char) : Bool :=
  match t with
  | [] => false
  | c :: _ => !isJsLineTerm c

/-- Faithful model of the test `/^https?:\/\/.+/.test(url)` in
`validateURL`: the string starts with `http://` or `https://` and at
least one `.`-matchable character follows. -/
def httpPatternTest (s : String) : Bool :=
  if jsBeginsWith "https://" s then hasDotMatchableHead (s.toList.drop 8)
  else if jsBeginsWith "http://" s then hasDotMatchableHead (s.toList.drop 7)
  else false

/-- The `validateURL` method: the regex test, then `new URL(url)` inside
`try`/`catch` (throw ⇒ `false`).  `parseOk` abstracts the platform URL
constructor succeeding. -/
def validateURL (parseOk : String → Bool) (url : String) : Bool :=
  if !httpPatternTest url then false
  else parseOk url

def isAlphanumChar (c : Char) : Bool :=
  ('a' ≤ c && c ≤ 'z') || ('A' ≤ c && c ≤ 'Z') || ('0' ≤ c && c ≤ '9')

/-- The `validateShortcode` method: `/^[a-zA-Z0-9]{3,20}$/.test(shortcode)`. -/
def validateShortcode (shortcode : String) : Bool :=
  3 ≤ shortcode.length && shortcode.length ≤ 20 &&
    shortcode.toList.all isAlphanumChar

/-! ## Records and registry state -/

/-- One element of a record's `clicks` array / of a `clickData` entry. -/
structure ClickEvent where
  timestamp : JsTime
  source : String
  location : String
deriving DecidableEq, Repr

/-- The `urlData` object built by `createShortURL`. -/
structure URLRecord where
  id : String
  originalUrl : String
  shortcode : String
  shortUrl : String
  createdAt : JsTime
  expiresAt : JsTime
  validityMinutes : ℚ
  clickCount : Nat
  clicks : List ClickEvent
deriving DecidableEq, Repr

/-- The mutable fields of the `URLService` singleton (`shortcodeCounter`
is declared in the source but never read or written afterwards and is
omitted). -/
structure RegState where
  urls : List (String × URLRecord)
  clickData : List (String × List ClickEvent)
  usedShortcodes : List String
deriving DecidableEq, Repr

def emptyState : RegState := ⟨[], [], []⟩

/-- `Map.prototype.get`. -/
def mapGet (k : String) : List (String × α) → Option α
  | [] => none
  | (k', v) :: rest => if k' = k then some v else mapGet k rest

/-- `Map.prototype.set`: replace in place if the key is present, else
append. -/
def mapSet (k : String) (v : α) : List (String × α) → List (String × α)
  | [] => [(k, v)]
  | (k', v') :: rest =>
      if k' = k then (k, v) :: rest else (k', v') :: mapSet k v rest

/-- `Set.prototype.add`. -/
def setAdd (x : String) (s : List String) : List String :=
  if s.contains x then s else s ++ [x]

/-- The `isShortcodeAvailable` method: `!this.usedShortcodes.has(shortcode)`. -/
def isShortcodeAvailable (st : RegState) (shortcode : String) : Bool :=
  !(st.usedShortcodes.contains shortcode)

/-! ## Shortcode generation (`generateShortcode`) -/

def shortcodeAlphabet : String :=
  "ABCDEFGHIJKLMNOPQRSTUVWXYZabcdefghijklmnopqrstuvwxyz0123456789"

/-- One 6-character sample of the generation loop: characters
`chars.charAt(Math.floor(Math.random() * chars.length))`, drawing the
six stream values starting at index `base`. -/
def sampleCode (rand : Nat → Fin 62) (base : Nat) : String :=
  String.mk ((List.range 6).map fun i =>
    shortcodeAlphabet.toList.getD (rand (base + i)).val 'A')

/-- The `do`/`while` loop of `generateShortcode`: `made` samples were
already made; draw the next sample, and continue while it collides with
`usedShortcodes` and fewer than `maxAttempts = 100` samples were made.
Returns the final value of `attempts` and the last sample.  `fuel` only
bounds the recursion; with `fuel = 100 - made` the base case is never
reached. -/
def genScan (rand : Nat → Fin 62) (used : List String) : Nat → Nat → Nat × String
  | 0, made => (made, sampleCode rand (6 * made))
  | fuel + 1, made =>
      let code := sampleCode rand (6 * made)
      if used.contains code && made + 1 < 100 then
        genScan rand used fuel (made + 1)
      else
        (made + 1, code)

def base36Digit (n : Nat) : Char :=
  if n < 10 then Char.ofNat (48 + n) else Char.ofNat (87 + n)

def base36Core : Nat → Nat → List Char
  | 0, _ => []
  | fuel + 1, n => if n = 0 then [] else base36Core fuel (n / 36) ++ [base36Digit (n % 36)]

/-- `Number.prototype.toString(36)` for a natural number: lowercase
base-36 digits. -/
def base36 (n : Nat) : String :=
  if n = 0 then "0" else String.mk (base36Core (n + 1) n)

/-- The `generateShortcode` method.  After the loop, if `attempts`
reached `maxAttempts` the fallback `'url' + Date.now().toString(36)`
replaces the last sample; the chosen code is added to `usedShortcodes`
before returning. -/
def generateShortcode (rand : Nat → Fin 62) (nowMs : Nat) (st : RegState) :
    String × RegState :=
  let scan := genScan rand st.usedShortcodes 100 0
  let code := if 100 ≤ scan.1 then "url" ++ base36 nowMs else scan.2
  (code, { st with usedShortcodes := setAdd code st.usedShortcodes })

/-! ## Creating short URLs (`createShortURL`) -/

/-- Error string returned when `validateURL` fails. -/
def invalidUrlMsg : String :=
  "Invalid URL format. Please provide a valid HTTP/HTTPS URL."

/-- Error string returned when the validity period check fails. -/
def invalidValidityMsg : String :=
  "Validity period must be a positive integer (minutes)."

/-- Error string returned when `validateShortcode` fails. -/
def invalidShortcodeMsg : String :=
  "Invalid shortcode format. Use 3-20 alphanumeric characters."

/-- Error string returned when `isShortcodeAvailable` fails. -/
def shortcodeTakenMsg : String :=
  "Shortcode already in use. Please choose a different one."

/-- Error string returned by `getOriginalURL` for an unknown shortcode. -/
def notFoundMsg : String := "Short URL not found."

/-- Error string returned by `getOriginalURL` for an expired record. -/
def expiredMsg : String := "Short URL has expired."

/-- The environment a call runs in: the abstract platform URL parser,
the `Math.random` stream, the clock (`Date.now()` / `new Date()`), and
`window.location.origin`. -/
structure Env where
  parseOk : String → Bool
  rand : Nat → Fin 62
  nowMs : Nat
  origin : String

/-- JavaScript number check `Number.isInteger(v)` on a (non-`NaN`)
numeric value modelled as a rational. -/
def jsIsInteger (v : ℚ) : Bool := v.den = 1

/-- The `urlData` object built on the success path of `createShortURL`:
`createdAt = new Date()`, `expiresAt = new Date(createdAt.getTime() +
validityMinutes * 60 * 1000)`, `id = Date.now().toString()`,
`shortUrl = origin + '/' + shortcode`, `clickCount = 0`, `clicks = []`.
Only reached when `validityMinutes` is a positive integer. -/
def mkURLRecord (env : Env) (originalUrl : String) (validityMinutes : ℚ)
    (shortcode : String) : URLRecord :=
  { id := toString env.nowMs
    originalUrl := originalUrl
    shortcode := shortcode
    shortUrl := env.origin ++ "/" ++ shortcode
    createdAt := .dateVal env.nowMs
    expiresAt := .dateVal (env.nowMs + validityMinutes.num.toNat * 60 * 1000)
    validityMinutes := validityMinutes
    clickCount := 0
    clicks := [] }

/-- The tail of `createShortURL` after a shortcode has been chosen:
store the record in `urls`, store an empty click list in `clickData`.
(The subsequent `saveToStorage()` call is modelled at the `World` level,
where the storage blob lives.)  Note that the chosen shortcode is not
added to `usedShortcodes` here; only `generateShortcode` adds codes to
that set. -/
def storeRecord (env : Env) (st : RegState) (originalUrl : String)
    (validityMinutes : ℚ) (shortcode : String) : Except String URLRecord × RegState :=
  let urlData := mkURLRecord env originalUrl validityMinutes shortcode
  (.ok urlData,
   { st with urls := mapSet shortcode urlData st.urls,
             clickData := mapSet shortcode [] st.clickData })

/-- The `createShortURL` method.  `customShortcode` is `Option String`;
`if (customShortcode)` is JavaScript truthiness, so `some ""` behaves
like `none`.  The validity check is
`!Number.isInteger(validityMinutes) || validityMinutes <= 0`. -/
def createShortURL (env : Env) (st : RegState) (originalUrl : String)
    (validityMinutes : ℚ) (customShortcode : Option String) :
    Except String URLRecord × RegState :=
  if !validateURL env.parseOk originalUrl then
    (.error invalidUrlMsg, st)
  else if !jsIsInteger validityMinutes || validityMinutes ≤ 0 then
    (.error invalidValidityMsg, st)
  else
    match customShortcode with
    | some c =>
        if c = "" then
          let gen := generateShortcode env.rand env.nowMs st
          storeRecord env gen.2 originalUrl validityMinutes gen.1
        else if !validateShortcode c then
          (.error invalidShortcodeMsg, st)
        else if !isShortcodeAvailable st c then
          (.error shortcodeTakenMsg, st)
        else
          storeRecord env st originalUrl validityMinutes c
    | none =>
        let gen := generateShortcode env.rand env.nowMs st
        storeRecord env gen.2 originalUrl validityMinutes gen.1

/-! ## Resolution and click recording -/

/-- The record update performed by `recordClick` on the found `urlData`:
`clickCount++` and `clicks.push(click)`. -/
def appendClick (r : URLRecord) (click : ClickEvent) : URLRecord :=
  { r with clickCount := r.clickCount + 1, clicks := r.clicks ++ [click] }

/-- The `recordClick` method: no-op when the shortcode is not in `urls`;
otherwise build a click event from the clock, `document.referrer`
(`source`) and the placeholder location, mutate the record, and push the
same event onto the `clickData` entry.  The source expression
`this.clickData.get(shortcode).push(...)` requires the `clickData` entry
to exist (it would throw otherwise); the registry keeps `clickData`'s
keys equal to `urls`' keys, and on the impossible missing-entry branch
the embedding leaves `clickData` unchanged. -/
def recordClick (nowMs : Nat) (source location : String) (st : RegState)
    (shortcode : String) : RegState :=
  match mapGet shortcode st.urls with
  | none => st
  | some r =>
      let click : ClickEvent := ⟨.dateVal nowMs, source, location⟩
      { st with
        urls := mapSet shortcode (appendClick r click) st.urls,
        clickData :=
          match mapGet shortcode st.clickData with
          | some l => mapSet shortcode (l ++ [click]) st.clickData
          | none => st.clickData }

/-- The `getOriginalURL` method: `NotFound` when the shortcode is not in
`urls`; `Expired` when `new Date() > urlData.expiresAt`; otherwise record
a click and return the (now updated) record object. -/
def getOriginalURL (nowMs : Nat) (source location : String) (st : RegState)
    (shortcode : String) : Except String URLRecord × RegState :=
  match mapGet shortcode st.urls with
  | none => (.error notFoundMsg, st)
  | some r =>
      if jsGtTime nowMs r.expiresAt then
        (.error expiredMsg, st)
      else
        let st' := recordClick nowMs source location st shortcode
        (.ok ((mapGet shortcode st'.urls).getD r), st')

/-! ## Cleanup (`cleanupExpiredURLs`) -/

/-- The `cleanupExpiredURLs` method: iterate over the entries of `urls`
and, for each record with `now > expiresAt`, delete its shortcode from
`urls`, `clickData` and `usedShortcodes`.  Since `Map` keys are unique
and only the entry under iteration is deleted, this equals keeping the
non-expired `urls` entries and dropping the expired keys from the other
two collections. -/
def cleanupExpiredURLs (nowMs : Nat) (st : RegState) : RegState :=
  let expiredKeys :=
    (st.urls.filter fun p => jsGtTime nowMs p.2.expiresAt).map Prod.fst
  { urls := st.urls.filter fun p => !jsGtTime nowMs p.2.expiresAt,
    clickData := st.clickData.filter fun p => !expiredKeys.contains p.1,
    usedShortcodes := st.usedShortcodes.filter fun s => !expiredKeys.contains s }

/-- The `getAllURLs` method (`listAll` in the specification):
`Array.from(this.urls.values())`. -/
def getAllURLs (st : RegState) : List URLRecord :=
  st.urls.map Prod.snd

/-! ## Persistence (`saveToStorage` / `loadFromStorage`)

`saveToStorage` builds `{ urls: Array.from(this.urls.entries()),
clickData: Array.from(this.clickData.entries()), usedShortcodes:
Array.from(this.usedShortcodes) }` and stores
`JSON.stringify(data)` under the key `'urlShortenerData'`;
`loadFromStorage` applies `JSON.parse` and rebuilds the `Map`s/`Set`.
The blob is modelled as the JSON value itself (`JSON.stringify` followed
by `JSON.parse` is the identity on these values: all numbers involved
are integers far below 2^53).  The decisive semantic point is that
`JSON.stringify` serializes a `Date` object via `toJSON` to its
ISO-8601 string, and `JSON.parse` returns that plain string — it never
reconstructs a `Date`. -/

/-- JSON values, as produced by `JSON.parse`. -/
inductive Json where
  | jnull
  | jbool (b : Bool)
  | jnum (q : ℚ)
  | jstr (s : String)
  | jarr (xs : List Json)
  | jobj (fields : List (String × Json))

/-- What `JSON.stringify` turns a timestamp field into: a `Date` becomes
its ISO string, a string stays itself. -/
def encodeTime : JsTime → Json
  | .dateVal ms => .jstr (isoOfMs ms)
  | .strVal s => .jstr s

def encodeClick (c : ClickEvent) : Json :=
  .jobj [("timestamp", encodeTime c.timestamp),
         ("source", .jstr c.source),
         ("location", .jstr c.location)]

def encodeRecord (r : URLRecord) : Json :=
  .jobj [("id", .jstr r.id),
         ("originalUrl", .jstr r.originalUrl),
         ("shortcode", .jstr r.shortcode),
         ("shortUrl", .jstr r.shortUrl),
         ("createdAt", encodeTime r.createdAt),
         ("expiresAt", encodeTime r.expiresAt),
         ("validityMinutes", .jnum r.validityMinutes),
         ("clickCount", .jnum r.clickCount),
         ("clicks", .jarr (r.clicks.map encodeClick))]

/-- The serialized `data` object of `saveToStorage`. -/
def encodeState (st : RegState) : Json :=
  .jobj [("urls", .jarr (st.urls.map fun p => .jarr [.jstr p.1, encodeRecord p.2])),
         ("clickData", .jarr (st.clickData.map fun p =>
            .jarr [.jstr p.1, .jarr (p.2.map encodeClick)])),
         ("usedShortcodes", .jarr (st.usedShortcodes.map .jstr))]

def decodeTime : Json → Option JsTime
  | .jstr s => some (.strVal s)
  | _ => none

def decodeClick : Json → Option ClickEvent
  | .jobj [("timestamp", t), ("source", .jstr s), ("location", .jstr l)] =>
      (decodeTime t).map fun ts => ⟨ts, s, l⟩
  | _ => none

def decodeClicks : List Json → Option (List ClickEvent)
  | [] => some []
  | j :: rest => do
      let c ← decodeClick j
      let cs ← decodeClicks rest
      pure (c :: cs)

/-- Counts written by `saveToStorage` are natural numbers and round-trip
exactly through JSON. -/
def decodeCount (q : ℚ) : Nat := q.num.toNat

def decodeRecord : Json → Option URLRecord
  | .jobj [("id", .jstr id), ("originalUrl", .jstr ou), ("shortcode", .jstr sc),
           ("shortUrl", .jstr su), ("createdAt", ca), ("expiresAt", ea),
           ("validityMinutes", .jnum vm), ("clickCount", .jnum cc),
           ("clicks", .jarr cl)] => do
      let ca' ← decodeTime ca
      let ea' ← decodeTime ea
      let cl' ← decodeClicks cl
      pure ⟨id, ou, sc, su, ca', ea', vm, decodeCount cc, cl'⟩
  | _ => none

def decodeURLEntries : List Json → Option (List (String × URLRecord))
  | [] => some []
  | .jarr [.jstr k, rj] :: rest => do
      let r ← decodeRecord rj
      let rs ← decodeURLEntries rest
      pure ((k, r) :: rs)
  | _ => none

def decodeClickEntries : List Json → Option (List (String × List ClickEvent))
  | [] => some []
  | .jarr [.jstr k, .jarr cj] :: rest => do
      let cs ← decodeClicks cj
      let rs ← decodeClickEntries rest
      pure ((k, cs) :: rs)
  | _ => none

def decodeStrings : List Json → Option (List String)
  | [] => some []
  | .jstr s :: rest => (decodeStrings rest).map fun ss => s :: ss
  | _ => none

/-- Rebuilding the in-memory state from a parsed blob, as
`loadFromStorage` does with `new Map(parsedData.urls || [])` etc.
(The `|| []` defaults only fire for blobs lacking the field, which
`saveToStorage` never writes.) -/
def decodeState : Json → Option RegState
  | .jobj [("urls", .jarr us), ("clickData", .jarr cs), ("usedShortcodes", .jarr ss)] => do
      let urls ← decodeURLEntries us
      let clicks ← decodeClickEntries cs
      let used ← decodeStrings ss
      pure ⟨urls, clicks, used⟩
  | _ => none

/-- The `saveToStorage` method: the blob written under
`'urlShortenerData'`. -/
def saveToStorage (st : RegState) : Json := encodeState st

/-- The `loadFromStorage` method: nothing stored, or a parse/shape
failure (caught and logged), leaves the state unchanged. -/
def loadFromStorage (blob : Option Json) (st : RegState) : RegState :=
  match blob with
  | none => st
  | some j => (decodeState j).getD st

/-! What the round-trip actually reconstructs. -/

/-- Effect of JSON serialization on a timestamp: a `Date` comes back as
its ISO-8601 string. -/
def stripTime : JsTime → JsTime
  | .dateVal ms => .strVal (isoOfMs ms)
  | .strVal s => .strVal s

def stripClick (c : ClickEvent) : ClickEvent :=
  { c with timestamp := stripTime c.timestamp }

def stripRecord (r : URLRecord) : URLRecord :=
  { r with createdAt := stripTime r.createdAt,
           expiresAt := stripTime r.expiresAt,
           clicks := r.clicks.map stripClick }

/-- The state `loadFromStorage` rebuilds from a blob `saveToStorage`
wrote: identical except every `Date`-valued timestamp has become its
ISO string. -/
def stripState (st : RegState) : RegState :=
  { urls := st.urls.map fun p => (p.1, stripRecord p.2),
    clickData := st.clickData.map fun p => (p.1, p.2.map stripClick),
    usedShortcodes := st.usedShortcodes }

/-! ## Operation sequences

The in-memory registry together with the localStorage blob, and the
operations of its API.  Each operation calls `saveToStorage()` exactly
where the source does: `createShortURL` on its success path,
`recordClick` (hence every successful `getOriginalURL`), and
`cleanupExpiredURLs` when at least one record was removed. -/

structure World where
  st : RegState
  store : Option Json

def initWorld : World := ⟨emptyState, none⟩

/-- One call into the registry's API.  Each constructor carries the
ambient inputs of that call (clock, random stream, platform parser,
referrer, …). -/
inductive Op where
  | create (env : Env) (originalUrl : String) (validityMinutes : ℚ)
      (customShortcode : Option String)
  | resolve (nowMs : Nat) (source location shortcode : String)
  | cleanup (nowMs : Nat)
  | save
  | load

/-- Commit the outcome of an operation that calls `saveToStorage()` on
its success path only (`createShortURL`, `getOriginalURL` via
`recordClick`): the new in-memory state always sticks, the blob is
rewritten only when the call succeeded. -/
def saveIfOk (w : World) (res : Except String URLRecord × RegState) : World :=
  { st := res.2,
    store := match res.1 with
      | .ok _ => some (saveToStorage res.2)
      | .error _ => w.store }

def stepOp (w : World) : Op → World
  | .create env url v custom =>
      saveIfOk w (createShortURL env w.st url v custom)
  | .resolve nowMs src loc sc =>
      saveIfOk w (getOriginalURL nowMs src loc w.st sc)
  | .cleanup nowMs =>
      let st' := cleanupExpiredURLs nowMs w.st
      { st := st',
        store := if w.st.urls.any fun p => jsGtTime nowMs p.2.expiresAt then
            some (saveToStorage st')
          else w.store }
  | .save => { w with store := some (saveToStorage w.st) }
  | .load => { w with st := loadFromStorage w.store w.st }

/-- The world after a sequence of API calls starting from a fresh
registry with empty storage. -/
def runOps (ops : List Op) : World :=
  ops.foldl stepOp initWorld

/-! ## Association-list lemmas -/

theorem mapGet_mapSet_self (k : String) (v : α) (l : List (String × α)) :
    mapGet k (mapSet k v l) = some v := by
  induction l with
  | nil => simp [mapGet, mapSet]
  | cons p rest ih =>
      by_cases h : p.1 = k
      · simp [mapGet, mapSet, h]
      · simp only [mapSet]
        rw [if_neg (by exact h)]
        simp [mapGet, h, ih]

theorem mapGet_mapSet_ne (k k' : String) (v : α) (l : List (String × α))
    (h : k ≠ k') : mapGet k' (mapSet k v l) = mapGet k' l := by
  induction l with
  | nil => simp [mapGet, mapSet, h]
  | cons p rest ih =>
      by_cases hp : p.1 = k
      · simp only [mapSet]
        rw [if_pos hp]
        simp [mapGet, h, hp]
      · simp only [mapSet]
        rw [if_neg hp]
        by_cases hk' : p.1 = k'
        · simp [mapGet, hk']
        · simp [mapGet, hk', ih]

theorem mapGet_mem {k : String} {v : α} {l : List (String × α)}
    (h : mapGet k l = some v) : (k, v) ∈ l := by
  induction l with
  | nil => simp [mapGet] at h
  | cons p rest ih =>
      by_cases hp : p.1 = k
      · simp only [mapGet, if_pos hp] at h
        cases h
        cases p with
        | mk a b =>
            cases hp
            exact List.mem_cons_self _ _
      · simp only [mapGet, if_neg hp] at h
        exact List.mem_cons_of_mem _ (ih h)

theorem mapGet_mapVal (k : String) (f : α → β) (l : List (String × α)) :
    mapGet k (l.map fun p => (p.1, f p.2)) = (mapGet k l).map f := by
  induction l with
  | nil => simp [mapGet]
  | cons p rest ih =>
      by_cases hp : p.1 = k
      · simp [mapGet, hp]
      · simp [mapGet, hp, ih]

theorem mem_mapSet {k : String} {v : α} {l : List (String × α)} {p : String × α}
    (h : p ∈ mapSet k v l) : p = (k, v) ∨ p ∈ l := by
  induction l with
  | nil => simpa [mapSet] using h
  | cons q rest ih =>
      by_cases hq : q.1 = k
      · rw [show mapSet k v (q :: rest) = (k, v) :: rest from by simp [mapSet, hq]] at h
        rcases List.mem_cons.mp h with h' | h'
        · exact Or.inl h'
        · exact Or.inr (List.mem_cons_of_mem _ h')
      · rw [show mapSet k v (q :: rest) = q :: mapSet k v rest from by
            simp [mapSet, hq]] at h
        rcases List.mem_cons.mp h with h' | h'
        · exact Or.inr (by simp [h'])
        · rcases ih h' with h'' | h''
          · exact Or.inl h''
          · exact Or.inr (List.mem_cons_of_mem _ h'')

theorem keys_mapSet (k : String) (v : α) (l : List (String × α)) :
    (mapSet k v l).map Prod.fst =
      if (l.map Prod.fst).contains k then l.map Prod.fst
      else l.map Prod.fst ++ [k] := by
  induction l with
  | nil => simp [mapSet]
  | cons p rest ih =>
      by_cases hp : p.1 = k
      · simp [mapSet, hp]
      · have hbeq : (k == p.1) = false := by
          simp only [beq_eq_false_iff_ne, ne_eq]
          exact fun e => hp e.symm
        simp only [mapSet, if_neg hp, List.map_cons, List.contains_cons, ih, hbeq,
          Bool.false_or]
        by_cases hc : (List.map Prod.fst rest).contains k = true
        · rw [if_pos hc, if_pos hc]
        · rw [if_neg hc, if_neg hc, List.cons_append]

theorem mapGet_isSome_contains (k : String) (l : List (String × α)) :
    (mapGet k l).isSome = (l.map Prod.fst).contains k := by
  induction l with
  | nil => simp [mapGet]
  | cons p rest ih =>
      by_cases hp : p.1 = k
      · simp [mapGet, hp]
      · have hbeq : (k == p.1) = false := by
          simp only [beq_eq_false_iff_ne, ne_eq]
          exact fun e => hp e.symm
        simp [mapGet, hp, ih, hbeq]

theorem mapGet_eq_none_of_not_mem {k : String} {l : List (String × α)}
    (h : k ∉ l.map Prod.fst) : mapGet k l = none := by
  induction l with
  | nil => rfl
  | cons p rest ih =>
      simp only [List.map_cons, List.mem_cons] at h
      push_neg at h
      have hne : p.1 ≠ k := fun e => h.1 e.symm
      simp only [mapGet, if_neg hne]
      exact ih h.2

theorem mapGet_eq_some_of_mem {k : String} {v : α} {l : List (String × α)}
    (hn : (l.map Prod.fst).Nodup) (h : (k, v) ∈ l) : mapGet k l = some v := by
  induction l with
  | nil => simp at h
  | cons p rest ih =>
      simp only [List.map_cons, List.nodup_cons] at hn
      rcases List.mem_cons.mp h with h' | h'
      · cases h'
        simp [mapGet]
      · have hk : p.1 ≠ k := by
          intro e
          exact hn.1 (e ▸ (List.mem_map.mpr ⟨(k, v), h', rfl⟩))
        simp only [mapGet, if_neg hk]
        exact ih hn.2 h'

theorem mapGet_filter (k : String) (q : String × α → Bool) (l : List (String × α))
    (hn : (l.map Prod.fst).Nodup) :
    mapGet k (l.filter q) =
      (mapGet k l).bind fun v => if q (k, v) then some v else none := by
  induction l with
  | nil => simp [mapGet]
  | cons p rest ih =>
      simp only [List.map_cons, List.nodup_cons] at hn
      by_cases hp : p.1 = k
      · obtain ⟨k₀, v₀⟩ := p
        cases hp
        by_cases hq : q (k₀, v₀)
        · simp [List.filter_cons, hq, mapGet]
        · have hnone : mapGet k₀ (rest.filter q) = none := by
            apply mapGet_eq_none_of_not_mem
            intro hmem
            have hsub : ((rest.filter q).map Prod.fst) ⊆ rest.map Prod.fst :=
              ((List.filter_sublist rest).map Prod.fst).subset
            exact hn.1 (hsub hmem)
          simp [List.filter_cons, hq, mapGet, hnone]
      · by_cases hq : q p
        · simp [List.filter_cons, hq, mapGet, hp, ih hn.2]
        · simp [List.filter_cons, hq, mapGet, hp, ih hn.2]

theorem keys_filter_sublist (q : String × α → Bool) (l : List (String × α)) :
    ((l.filter q).map Prod.fst).Sublist (l.map Prod.fst) :=
  (List.filter_sublist l).map Prod.fst

theorem keys_mapVal (f : α → β) (l : List (String × α)) :
    ((l.map fun p => (p.1, f p.2)).map Prod.fst) = l.map Prod.fst := by
  induction l with
  | nil => rfl
  | cons p rest ih => simp [ih]

/-! ## Round-trip lemmas for the persistence layer -/

theorem decodeTime_encodeTime (t : JsTime) :
    decodeTime (encodeTime t) = some (stripTime t) := by
  cases t <;> rfl

theorem decodeClick_encodeClick (c : ClickEvent) :
    decodeClick (encodeClick c) = some (stripClick c) := by
  cases c with
  | mk t s l => cases t <;> rfl

theorem decodeClicks_map (l : List ClickEvent) :
    decodeClicks (l.map encodeClick) = some (l.map stripClick) := by
  induction l with
  | nil => rfl
  | cons c rest ih =>
      simp only [List.map_cons, decodeClicks, decodeClick_encodeClick, ih,
        Option.bind_eq_bind, Option.some_bind]
      rfl

theorem decodeCount_natCast (n : Nat) : decodeCount (n : ℚ) = n := by
  simp [decodeCount]

theorem decodeRecord_encodeRecord (r : URLRecord) :
    decodeRecord (encodeRecord r) = some (stripRecord r) := by
  cases r with
  | mk id ou sc su ca ea vm cc cl =>
      simp only [encodeRecord, decodeRecord, decodeTime_encodeTime,
        decodeClicks_map, Option.bind_eq_bind, Option.some_bind,
        decodeCount_natCast]
      rfl

theorem decodeURLEntries_map (l : List (String × URLRecord)) :
    decodeURLEntries (l.map fun p => .jarr [.jstr p.1, encodeRecord p.2]) =
      some (l.map fun p => (p.1, stripRecord p.2)) := by
  induction l with
  | nil => rfl
  | cons p rest ih =>
      simp only [List.map_cons, decodeURLEntries, decodeRecord_encodeRecord, ih,
        Option.bind_eq_bind, Option.some_bind]
      rfl

theorem decodeClickEntries_map (l : List (String × List ClickEvent)) :
    decodeClickEntries (l.map fun p => .jarr [.jstr p.1, .jarr (p.2.map encodeClick)]) =
      some (l.map fun p => (p.1, p.2.map stripClick)) := by
  induction l with
  | nil => rfl
  | cons p rest ih =>
      simp only [List.map_cons, decodeClickEntries, decodeClicks_map, ih,
        Option.bind_eq_bind, Option.some_bind]
      rfl

theorem decodeStrings_map (l : List String) :
    decodeStrings (l.map .jstr) = some l := by
  induction l with
  | nil => rfl
  | cons s rest ih => simp [decodeStrings, ih]

/-- Deserializing a blob written by `saveToStorage` succeeds and yields
the original state with every `Date` replaced by its ISO string. -/
theorem decodeState_encodeState (st : RegState) :
    decodeState (encodeState st) = some (stripState st) := by
  cases st with
  | mk urls clickData used =>
      simp only [encodeState, decodeState, decodeURLEntries_map,
        decodeClickEntries_map, decodeStrings_map, Option.bind_eq_bind,
        Option.some_bind]
      rfl

/-! ## Registry invariants

`CountsOk`: every record's `clickCount` equals the length of its
`clicks` array.  `ClickSync`: `urls` and `clickData` have the same keys
and each record's `clicks` array equals its `clickData` entry.
`KeysNodup`: the `Map`s have unique keys (automatic for real `Map`s). -/

def CountsOk (st : RegState) : Prop :=
  ∀ p ∈ st.urls, p.2.clickCount = p.2.clicks.length

def ClickSync (st : RegState) : Prop :=
  (∀ sc, (mapGet sc st.urls).isSome = (mapGet sc st.clickData).isSome) ∧
  (∀ sc r, mapGet sc st.urls = some r → mapGet sc st.clickData = some r.clicks)

def KeysNodup (st : RegState) : Prop :=
  (st.urls.map Prod.fst).Nodup ∧ (st.clickData.map Prod.fst).Nodup

def GoodState (st : RegState) : Prop := CountsOk st ∧ ClickSync st ∧ KeysNodup st

/-- Invariant of the full world: the in-memory state is good, and the
storage blob (when present) is the serialization of a good state. -/
def InvW (w : World) : Prop :=
  GoodState w.st ∧
  (w.store = none ∨ ∃ st0, w.store = some (encodeState st0) ∧ GoodState st0)

theorem goodState_empty : GoodState emptyState := by
  refine ⟨?_, ⟨?_, ?_⟩, ?_, ?_⟩ <;> simp [emptyState, CountsOk, mapGet]

theorem nodup_keys_mapSet (k : String) (v : α) (l : List (String × α))
    (hn : (l.map Prod.fst).Nodup) : ((mapSet k v l).map Prod.fst).Nodup := by
  rw [keys_mapSet]
  by_cases hc : (l.map Prod.fst).contains k = true
  · rw [if_pos hc]
    exact hn
  · rw [if_neg hc]
    have hk : k ∉ l.map Prod.fst := fun hm => hc (List.elem_iff.mpr hm)
    simp only [List.nodup_append, List.nodup_singleton, List.disjoint_singleton]
    exact ⟨hn, trivial, hk⟩

theorem goodState_storeRecord (env : Env) (st : RegState) (url : String)
    (v : ℚ) (sc : String) (h : GoodState st) :
    GoodState (storeRecord env st url v sc).2 := by
  obtain ⟨hc, ⟨hs1, hs2⟩, hn1, hn2⟩ := h
  refine ⟨?_, ⟨?_, ?_⟩, ?_, ?_⟩
  · intro p hp
    rcases mem_mapSet hp with rfl | hp'
    · rfl
    · exact hc p hp'
  · intro k
    by_cases hk : sc = k
    · subst hk
      rw [show (storeRecord env st url v sc).2.urls =
            mapSet sc (mkURLRecord env url v sc) st.urls from rfl,
          show (storeRecord env st url v sc).2.clickData =
            mapSet sc [] st.clickData from rfl,
          mapGet_mapSet_self, mapGet_mapSet_self]
      rfl
    · rw [show (storeRecord env st url v sc).2.urls =
            mapSet sc (mkURLRecord env url v sc) st.urls from rfl,
          show (storeRecord env st url v sc).2.clickData =
            mapSet sc [] st.clickData from rfl,
          mapGet_mapSet_ne _ _ _ _ hk, mapGet_mapSet_ne _ _ _ _ hk]
      exact hs1 k
  · intro k r hr
    rw [show (storeRecord env st url v sc).2.urls =
          mapSet sc (mkURLRecord env url v sc) st.urls from rfl] at hr
    rw [show (storeRecord env st url v sc).2.clickData =
          mapSet sc [] st.clickData from rfl]
    by_cases hk : sc = k
    · subst hk
      rw [mapGet_mapSet_self] at hr
      cases hr
      rw [mapGet_mapSet_self]
      rfl
    · rw [mapGet_mapSet_ne _ _ _ _ hk] at hr
      rw [mapGet_mapSet_ne _ _ _ _ hk]
      exact hs2 k r hr
  · exact nodup_keys_mapSet _ _ _ hn1
  · exact nodup_keys_mapSet _ _ _ hn2

theorem goodState_create (env : Env) (st : RegState) (url : String) (v : ℚ)
    (custom : Option String) (h : GoodState st) :
    GoodState (createShortURL env st url v custom).2 := by
  rw [createShortURL.eq_def]
  split
  · exact h
  · split
    · exact h
    · split
      · split
        · exact goodState_storeRecord _ _ _ _ _ h
        · split
          · exact h
          · split
            · exact h
            · exact goodState_storeRecord _ _ _ _ _ h
      · exact goodState_storeRecord _ _ _ _ _ h

theorem goodState_recordClick (nowMs : Nat) (src loc : String) (st : RegState)
    (sc : String) (h : GoodState st) :
    GoodState (recordClick nowMs src loc st sc) := by
  obtain ⟨hc, ⟨hs1, hs2⟩, hn1, hn2⟩ := h
  rw [recordClick.eq_def]
  cases hget : mapGet sc st.urls with
  | none => exact ⟨hc, ⟨hs1, hs2⟩, hn1, hn2⟩
  | some r =>
      have hcd : mapGet sc st.clickData = some r.clicks := hs2 sc r hget
      rw [hcd]
      refine ⟨?_, ⟨?_, ?_⟩, ?_, ?_⟩
      · intro p hp
        rcases mem_mapSet hp with rfl | hp'
        · have hr := hc (sc, r) (mapGet_mem hget)
          simp only [appendClick, List.length_append, List.length_singleton]
          simpa using hr
        · exact hc p hp'
      · intro k
        by_cases hk : sc = k
        · subst hk
          rw [show ({ st with
                urls := mapSet sc (appendClick r ⟨.dateVal nowMs, src, loc⟩) st.urls,
                clickData := mapSet sc (r.clicks ++ [⟨.dateVal nowMs, src, loc⟩])
                  st.clickData } : RegState).urls =
              mapSet sc (appendClick r ⟨.dateVal nowMs, src, loc⟩) st.urls from rfl,
            mapGet_mapSet_self, mapGet_mapSet_self]
          rfl
        · rw [show ({ st with
                urls := mapSet sc (appendClick r ⟨.dateVal nowMs, src, loc⟩) st.urls,
                clickData := mapSet sc (r.clicks ++ [⟨.dateVal nowMs, src, loc⟩])
                  st.clickData } : RegState).urls =
              mapSet sc (appendClick r ⟨.dateVal nowMs, src, loc⟩) st.urls from rfl,
            mapGet_mapSet_ne _ _ _ _ hk, mapGet_mapSet_ne _ _ _ _ hk]
          exact hs1 k
      · intro k r' hr'
        by_cases hk : sc = k
        · subst hk
          rw [show ({ st with
                urls := mapSet sc (appendClick r ⟨.dateVal nowMs, src, loc⟩) st.urls,
                clickData := mapSet sc (r.clicks ++ [⟨.dateVal nowMs, src, loc⟩])
                  st.clickData } : RegState).urls =
              mapSet sc (appendClick r ⟨.dateVal nowMs, src, loc⟩) st.urls from rfl,
            mapGet_mapSet_self] at hr'
          cases hr'
          rw [show ({ st with
                urls := mapSet sc (appendClick r ⟨.dateVal nowMs, src, loc⟩) st.urls,
                clickData := mapSet sc (r.clicks ++ [⟨.dateVal nowMs, src, loc⟩])
                  st.clickData } : RegState).clickData =
              mapSet sc (r.clicks ++ [⟨.dateVal nowMs, src, loc⟩]) st.clickData from rfl,
            mapGet_mapSet_self]
          rfl
        · rw [show ({ st with
                urls := mapSet sc (appendClick r ⟨.dateVal nowMs, src, loc⟩) st.urls,
                clickData := mapSet sc (r.clicks ++ [⟨.dateVal nowMs, src, loc⟩])
                  st.clickData } : RegState).urls =
              mapSet sc (appendClick r ⟨.dateVal nowMs, src, loc⟩) st.urls from rfl,
            mapGet_mapSet_ne _ _ _ _ hk] at hr'
          rw [show ({ st with
                urls := mapSet sc (appendClick r ⟨.dateVal nowMs, src, loc⟩) st.urls,
                clickData := mapSet sc (r.clicks ++ [⟨.dateVal nowMs, src, loc⟩])
                  st.clickData } : RegState).clickData =
              mapSet sc (r.clicks ++ [⟨.dateVal nowMs, src, loc⟩]) st.clickData from rfl,
            mapGet_mapSet_ne _ _ _ _ hk]
          exact hs2 k r' hr'
      · exact nodup_keys_mapSet _ _ _ hn1
      · exact nodup_keys_mapSet _ _ _ hn2

theorem goodState_getOriginalURL (nowMs : Nat) (src loc : String) (st : RegState)
    (sc : String) (h : GoodState st) :
    GoodState (getOriginalURL nowMs src loc st sc).2 := by
  rw [getOriginalURL.eq_def]
  split
  · exact h
  · split
    · exact h
    · exact goodState_recordClick _ _ _ _ _ h

/-- Membership in the keys of the expired sub-map, characterized through
`mapGet` (keys are unique). -/
theorem expiredKeys_contains_iff (nowMs : Nat) (st : RegState)
    (hn : (st.urls.map Prod.fst).Nodup) (sc : String) :
    (((st.urls.filter fun p => jsGtTime nowMs p.2.expiresAt).map Prod.fst).contains sc
        = true) ↔
      ∃ r, mapGet sc st.urls = some r ∧ jsGtTime nowMs r.expiresAt = true := by
  rw [List.elem_iff]
  constructor
  · intro hmem
    obtain ⟨p, hp, hfst⟩ := List.mem_map.mp hmem
    obtain ⟨hpu, hpq⟩ := List.mem_filter.mp hp
    refine ⟨p.2, ?_, hpq⟩
    have : (sc, p.2) ∈ st.urls := by
      obtain ⟨a, b⟩ := p
      cases hfst
      exact hpu
    exact mapGet_eq_some_of_mem hn this
  · rintro ⟨r, hget, hexp⟩
    exact List.mem_map.mpr ⟨(sc, r),
      List.mem_filter.mpr ⟨mapGet_mem hget, hexp⟩, rfl⟩

theorem goodState_cleanup (nowMs : Nat) (st : RegState) (h : GoodState st) :
    GoodState (cleanupExpiredURLs nowMs st) := by
  obtain ⟨hc, ⟨hs1, hs2⟩, hn1, hn2⟩ := h
  have hu : ∀ k, mapGet k (cleanupExpiredURLs nowMs st).urls =
      (mapGet k st.urls).bind fun v =>
        if !jsGtTime nowMs v.expiresAt then some v else none :=
    fun k => mapGet_filter k _ st.urls hn1
  have hd : ∀ k, mapGet k (cleanupExpiredURLs nowMs st).clickData =
      (mapGet k st.clickData).bind fun v =>
        if !((st.urls.filter fun p => jsGtTime nowMs p.2.expiresAt).map
              Prod.fst).contains k then some v else none :=
    fun k => mapGet_filter k _ st.clickData hn2
  have hcont : ∀ k r, mapGet k st.urls = some r →
      (((st.urls.filter fun p => jsGtTime nowMs p.2.expiresAt).map
          Prod.fst).contains k) = jsGtTime nowMs r.expiresAt := by
    intro k r hget
    cases hb : jsGtTime nowMs r.expiresAt with
    | true => exact (expiredKeys_contains_iff nowMs st hn1 k).mpr ⟨r, hget, hb⟩
    | false =>
        rw [Bool.eq_false_iff]
        intro hcc
        obtain ⟨r', hg', he'⟩ := (expiredKeys_contains_iff nowMs st hn1 k).mp hcc
        rw [hget] at hg'
        cases hg'
        rw [hb] at he'
        exact Bool.false_ne_true he'
  refine ⟨?_, ⟨?_, ?_⟩, ?_, ?_⟩
  · intro p hp
    exact hc p (List.mem_of_mem_filter hp)
  · intro k
    rw [hu, hd]
    cases hget : mapGet k st.urls with
    | none =>
        have hnone : mapGet k st.clickData = none := by
          cases hcd : mapGet k st.clickData with
          | none => rfl
          | some l =>
              have := hs1 k
              rw [hget, hcd] at this
              simp at this
        rw [hnone]
        rfl
    | some r =>
        rw [hs2 k r hget, hcont k r hget]
        cases hb : jsGtTime nowMs r.expiresAt <;> simp [hb]
  · intro k r' hr'
    rw [hu] at hr'
    rw [hd]
    cases hget : mapGet k st.urls with
    | none =>
        rw [hget] at hr'
        simp at hr'
    | some r =>
        rw [hget] at hr'
        simp only [Option.some_bind] at hr'
        cases hb : jsGtTime nowMs r.expiresAt with
        | true =>
            rw [hb] at hr'
            simp at hr'
        | false =>
            rw [hb] at hr'
            simp only [Bool.not_false, if_true] at hr'
            injection hr' with hrr
            subst hrr
            rw [hs2 k r hget, hcont k r hget, hb]
            simp
  · exact hn1.sublist (keys_filter_sublist _ st.urls)
  · exact hn2.sublist (keys_filter_sublist _ st.clickData)

theorem goodState_strip (st : RegState) (h : GoodState st) :
    GoodState (stripState st) := by
  obtain ⟨hc, ⟨hs1, hs2⟩, hn1, hn2⟩ := h
  refine ⟨?_, ⟨?_, ?_⟩, ?_, ?_⟩
  · intro p hp
    obtain ⟨q, hq, hpq⟩ := List.mem_map.mp hp
    cases hpq
    have := hc q hq
    simp [stripRecord, this]
  · intro k
    rw [show (stripState st).urls = st.urls.map fun p => (p.1, stripRecord p.2)
          from rfl,
        show (stripState st).clickData =
          st.clickData.map fun p => (p.1, p.2.map stripClick) from rfl,
        mapGet_mapVal, mapGet_mapVal]
    cases hget : mapGet k st.urls with
    | none =>
        have hnone : mapGet k st.clickData = none := by
          cases hcd : mapGet k st.clickData with
          | none => rfl
          | some l =>
              have := hs1 k
              rw [hget, hcd] at this
              simp at this
        rw [hnone]
        rfl
    | some r =>
        rw [hs2 k r hget]
        rfl
  · intro k r' hr'
    rw [show (stripState st).urls = st.urls.map fun p => (p.1, stripRecord p.2)
          from rfl, mapGet_mapVal] at hr'
    rw [show (stripState st).clickData =
          st.clickData.map fun p => (p.1, p.2.map stripClick) from rfl,
        mapGet_mapVal]
    cases hget : mapGet k st.urls with
    | none =>
        rw [hget] at hr'
        simp at hr'
    | some r =>
        rw [hget] at hr'
        simp at hr'
        subst hr'
        rw [hs2 k r hget]
        rfl
  · rw [show (stripState st).urls = st.urls.map fun p => (p.1, stripRecord p.2)
          from rfl, keys_mapVal]
    exact hn1
  · rw [show (stripState st).clickData =
          st.clickData.map fun p => (p.1, p.2.map stripClick) from rfl, keys_mapVal]
    exact hn2

theorem invW_saveIfOk (w : World) (res : Except String URLRecord × RegState)
    (h : InvW w) (hgood : GoodState res.2) : InvW (saveIfOk w res) := by
  obtain ⟨r1, r2⟩ := res
  cases r1 with
  | ok r => exact ⟨hgood, Or.inr ⟨_, rfl, hgood⟩⟩
  | error e => exact ⟨hgood, h.2⟩

theorem stepOp_create (w : World) (env : Env) (url : String) (v : ℚ)
    (custom : Option String) :
    stepOp w (.create env url v custom) =
      saveIfOk w (createShortURL env w.st url v custom) := rfl

theorem stepOp_resolve (w : World) (nowMs : Nat) (src loc sc : String) :
    stepOp w (.resolve nowMs src loc sc) =
      saveIfOk w (getOriginalURL nowMs src loc w.st sc) := rfl

theorem invW_step (w : World) (op : Op) (h : InvW w) : InvW (stepOp w op) := by
  obtain ⟨hg, hst⟩ := h
  cases op with
  | create env url v custom =>
      rw [stepOp_create]
      exact invW_saveIfOk w _ ⟨hg, hst⟩ (goodState_create env w.st url v custom hg)
  | resolve nowMs src loc sc =>
      rw [stepOp_resolve]
      exact invW_saveIfOk w _ ⟨hg, hst⟩
        (goodState_getOriginalURL nowMs src loc w.st sc hg)
  | cleanup nowMs =>
      have hg' := goodState_cleanup nowMs w.st hg
      refine ⟨hg', ?_⟩
      rw [stepOp]
      by_cases hb : (w.st.urls.any fun p => jsGtTime nowMs p.2.expiresAt) = true
      · rw [if_pos hb]
        exact Or.inr ⟨_, rfl, hg'⟩
      · rw [if_neg hb]
        exact hst
  | save => exact ⟨hg, Or.inr ⟨w.st, rfl, hg⟩⟩
  | load =>
      refine ⟨?_, hst⟩
      rw [stepOp, loadFromStorage.eq_def]
      rcases hst with hnone | ⟨st0, hsome, hg0⟩
      · rw [hnone]
        exact hg
      · rw [hsome]
        show GoodState ((decodeState (encodeState st0)).getD w.st)
        rw [decodeState_encodeState]
        exact goodState_strip st0 hg0

theorem invW_foldl (ops : List Op) (w : World) (h : InvW w) :
    InvW (ops.foldl stepOp w) := by
  induction ops generalizing w with
  | nil => exact h
  | cons op rest ih => exact ih _ (invW_step w op h)

theorem invW_runOps (ops : List Op) : InvW (runOps ops) :=
  invW_foldl ops initWorld ⟨goodState_empty, Or.inl rfl⟩

/-! ## Concrete fixtures used to instantiate the theorems -/

instance : DecidableEq (Except String URLRecord) := fun a b =>
  match a, b with
  | .ok x, .ok y =>
      if h : x = y then .isTrue (by rw [h]) else .isFalse (by simp [h])
  | .error x, .error y =>
      if h : x = y then .isTrue (by rw [h]) else .isFalse (by simp [h])
  | .ok _, .error _ => .isFalse (by simp)
  | .error _, .ok _ => .isFalse (by simp)

/-- A deterministic environment: the platform URL parser accepts
everything it is asked (it is only consulted after the regex test), the
random stream always yields index 26 (the character `a`), the clock
reads 0, and the page origin is `http://localhost`. -/
def envA : Env :=
  { parseOk := fun _ => true, rand := fun _ => 26, nowMs := 0,
    origin := "http://localhost" }

/-- First creation with custom shortcode `abc` from a fresh registry. -/
def createA1 : Except String URLRecord × RegState :=
  createShortURL envA emptyState "https://example.com" 30 (some "abc")

/-- Second creation with the same custom shortcode `abc`. -/
def createA2 : Except String URLRecord × RegState :=
  createShortURL envA createA1.2 "https://second.example" 30 (some "abc")

/-- Creation with a generated shortcode (stream yields `aaaaaa`) and a
1-minute validity. -/
def createG : Except String URLRecord × RegState :=
  createShortURL envA emptyState "https://example.com" 1 none

/-- The registry after `createG`, cleaned up at `t = 61000` ms (one
minute and one second, past the 1-minute expiry). -/
def stGclean : RegState := cleanupExpiredURLs 61000 createG.2

/-- The record `createShortURL` builds at time 0 for
`https://example.com`, 30 minutes, shortcode `abc`. -/
def recA : URLRecord := mkURLRecord envA "https://example.com" 30 "abc"

/-- A registry holding `recA` under `abc` (what the create above
produces in `urls`/`clickData`). -/
def stA : RegState := ⟨[("abc", recA)], [("abc", [])], []⟩

def opsA : List Op := [.create envA "https://example.com" 30 (some "abc")]

def opsB : List Op :=
  [.create envA "https://example.com" 30 (some "xyz"),
   .resolve 1000 "Direct" "Unknown" "xyz"]

/-! ## Claim theorems -/

/-- C9: `validateShortcode` returns true exactly for the strings
matching the anchored regex `[a-zA-Z0-9]` repeated 3 to 20 times: length
in the interval from 3 to 20 and every character alphanumeric. -/
theorem validateShortcode_iff (s : String) :
    validateShortcode s = true ↔
      3 ≤ s.length ∧ s.length ≤ 20 ∧ ∀ c ∈ s.toList, isAlphanumChar c = true := by
  simp [validateShortcode, Bool.and_eq_true, List.all_eq_true, and_assoc]

/-- C8: `validateURL` is the conjunction of the regex test with the
platform URL parser (abstracted as `parseOk`, since `new URL` is a
browser builtin): it returns false for every string that does not begin
with `http://` or `https://`, and true as soon as the regex test passes
and the parser accepts.  The regex additionally demands one
`.`-matchable character after the scheme separator. -/
theorem validateURL_spec (parseOk : String → Bool) (s : String) :
    validateURL parseOk s = (httpPatternTest s && parseOk s) ∧
    (jsBeginsWith "http://" s = false ∧ jsBeginsWith "https://" s = false →
      validateURL parseOk s = false) ∧
    (httpPatternTest s = true → parseOk s = true → validateURL parseOk s = true) := by
  refine ⟨?_, ?_, ?_⟩
  · rw [validateURL]
    cases h : httpPatternTest s <;> simp [h]
  · rintro ⟨h1, h2⟩
    rw [validateURL, httpPatternTest, h1, h2]
    rfl
  · intro h1 h2
    simp [validateURL, h1, h2]

/-- Witness for C8 at concrete strings: a non-HTTP scheme is rejected
regardless of the parser; a well-formed HTTPS URL is accepted. -/
theorem validateURL_spec_witness :
    validateURL (fun _ => true) "ftp://example.com" = false ∧
    validateURL (fun _ => true) "https://example.com" = true :=
  ⟨(validateURL_spec (fun _ => true) "ftp://example.com").2.1 (by decide),
   (validateURL_spec (fun _ => true) "https://example.com").2.2 (by decide) rfl⟩

/-- The registry after creating `aaaaaa` (1-minute validity, created at
`t = 0`), saving, and reloading: the record's timestamps are now ISO
strings. -/
def stLoaded : RegState :=
  loadFromStorage (some (saveToStorage createG.2)) emptyState

/-- C4 counterexample: after a save/load round-trip the record's
`expiresAt` is the ISO string `1970-01-01T00:01:00.000Z` (the instant
60000 ms).  Resolving at `t = 10⁹ ms` — far past that expiry — does not
return the expired error as the claim demands: `now > expiresAt`
compares a `Date` with a non-numeric string, `ToNumber` gives `NaN`,
the comparison is false, and the resolve succeeds and records a
click. -/
theorem resolve_after_load_counterexample :
    (mapGet "aaaaaa" stLoaded.urls).map URLRecord.expiresAt =
      some (.strVal "1970-01-01T00:01:00.000Z") ∧
    (getOriginalURL 1000000000 "Direct" "Unknown" stLoaded "aaaaaa").1 ≠
      .error expiredMsg ∧
    (getOriginalURL 1000000000 "Direct" "Unknown" stLoaded "aaaaaa").1 =
      .ok (appendClick (stripRecord (mkURLRecord envA "https://example.com" 1
        "aaaaaa")) ⟨.dateVal 1000000000, "Direct", "Unknown"⟩) :=
  ⟨by decide, by decide, by decide⟩

/-- C4 amended: `getOriginalURL` (the `resolve` operation) returns
`NotFound` when the shortcode is absent from the live mapping; when
present, it returns `Expired` exactly when the JavaScript comparison
`now > expiresAt` is true — which for a `Date`-valued `expiresAt` is
the millisecond comparison the claim describes, but is always false for
the ISO-string `expiresAt` of a record restored from storage, so loaded
records never expire; otherwise it returns the updated record —
`clickCount` incremented by exactly one, exactly one click event
appended, `originalUrl` unchanged — and stores that record back.  The
success case assumes the `clickData` entry exists, which the registry
guarantees (see the click-sync invariant); without it the source would
throw on `this.clickData.get(shortcode).push`. -/
theorem getOriginalURL_spec (nowMs : Nat) (src loc : String) (st : RegState)
    (sc : String) :
    (mapGet sc st.urls = none →
      getOriginalURL nowMs src loc st sc = (.error notFoundMsg, st)) ∧
    (∀ r, mapGet sc st.urls = some r → jsGtTime nowMs r.expiresAt = true →
      getOriginalURL nowMs src loc st sc = (.error expiredMsg, st)) ∧
    (∀ r l, mapGet sc st.urls = some r → jsGtTime nowMs r.expiresAt = false →
      mapGet sc st.clickData = some l →
      getOriginalURL nowMs src loc st sc =
        (.ok (appendClick r ⟨.dateVal nowMs, src, loc⟩),
         recordClick nowMs src loc st sc) ∧
      (appendClick r ⟨.dateVal nowMs, src, loc⟩).clickCount = r.clickCount + 1 ∧
      (appendClick r ⟨.dateVal nowMs, src, loc⟩).clicks =
        r.clicks ++ [⟨.dateVal nowMs, src, loc⟩] ∧
      (appendClick r ⟨.dateVal nowMs, src, loc⟩).originalUrl = r.originalUrl ∧
      mapGet sc (recordClick nowMs src loc st sc).urls =
        some (appendClick r ⟨.dateVal nowMs, src, loc⟩)) ∧
    (∀ ms, jsGtTime nowMs (JsTime.dateVal ms) = decide (ms < nowMs)) ∧
    (∀ s, parseDigits s = none → jsGtTime nowMs (JsTime.strVal s) = false) := by
  have hsome : ∀ r, mapGet sc st.urls = some r →
      getOriginalURL nowMs src loc st sc =
        if jsGtTime nowMs r.expiresAt then (.error expiredMsg, st)
        else (.ok ((mapGet sc (recordClick nowMs src loc st sc).urls).getD r),
              recordClick nowMs src loc st sc) := by
    intro r h
    rw [getOriginalURL.eq_def, h]
  refine ⟨?_, ?_, ?_, fun ms => rfl, ?_⟩
  · intro hget
    rw [getOriginalURL.eq_def, hget]
  · intro r hget hexp
    rw [hsome r hget, if_pos hexp]
  · intro r l hget hexp hcd
    have hrec : recordClick nowMs src loc st sc =
        { st with
          urls := mapSet sc (appendClick r ⟨.dateVal nowMs, src, loc⟩) st.urls,
          clickData := mapSet sc (l ++ [⟨.dateVal nowMs, src, loc⟩]) st.clickData } := by
      rw [recordClick.eq_def, hget, hcd]
    have hgot : mapGet sc (recordClick nowMs src loc st sc).urls =
        some (appendClick r ⟨.dateVal nowMs, src, loc⟩) := by
      rw [hrec]
      exact mapGet_mapSet_self _ _ _
    refine ⟨?_, rfl, rfl, rfl, hgot⟩
    rw [hsome r hget, if_neg (show ¬jsGtTime nowMs r.expiresAt = true from by
      rw [hexp]; exact Bool.false_ne_true), hgot]
    rfl
  · intro s h
    simp only [jsGtTime, h]

/-- Witness for the amended C4: resolving `abc` at `t = 60000` on a
registry holding an unexpired `Date`-valued record increments the click
count and returns the updated record. -/
theorem getOriginalURL_spec_witness :
    getOriginalURL 60000 "Direct" "Unknown" stA "abc" =
      (.ok (appendClick recA ⟨.dateVal 60000, "Direct", "Unknown"⟩),
       recordClick 60000 "Direct" "Unknown" stA "abc") :=
  ((getOriginalURL_spec 60000 "Direct" "Unknown" stA "abc").2.2.1 recA []
    (by decide) (by decide) (by decide)).1

/-- C7: after any sequence of registry operations (creation, resolution
with click recording, expiry cleanup, save and load), every record in
the live mapping has `clickCount` equal to the length of its `clicks`
array. -/
theorem clickCount_invariant (ops : List Op) (sc : String) (r : URLRecord)
    (h : mapGet sc (runOps ops).st.urls = some r) :
    r.clickCount = r.clicks.length :=
  (invW_runOps ops).1.1 (sc, r) (mapGet_mem h)

/-- Witness for C7 on a concrete run: one creation, whose record has
`clickCount = 0` and no clicks. -/
theorem clickCount_invariant_witness : recA.clickCount = recA.clicks.length :=
  clickCount_invariant opsA "abc" recA (by decide)

/-- C10: after any sequence of registry operations, `urls` and
`clickData` have exactly the same keys, and the record stored under a
shortcode has exactly the click list stored in `clickData` under that
shortcode. -/
theorem clickSync_invariant (ops : List Op) :
    (∀ sc, (mapGet sc (runOps ops).st.urls).isSome =
      (mapGet sc (runOps ops).st.clickData).isSome) ∧
    (∀ sc r, mapGet sc (runOps ops).st.urls = some r →
      mapGet sc (runOps ops).st.clickData = some r.clicks) :=
  (invW_runOps ops).1.2.1

/-- Witness for C10 on a concrete run: create `xyz` then resolve it
once; the `clickData` entry equals the record's single-click list. -/
theorem clickSync_invariant_witness :
    mapGet "xyz" (runOps opsB).st.clickData =
      some [⟨.dateVal 1000, "Direct", "Unknown"⟩] :=
  (clickSync_invariant opsB).2 "xyz"
    (appendClick (mkURLRecord envA "https://example.com" 30 "xyz")
      ⟨.dateVal 1000, "Direct", "Unknown"⟩) (by decide)

/-- C1 (code bug): a record is created with custom shortcode `abc`, yet
a second `createShortURL` with the same custom shortcode does not return
the shortcode-taken error — it succeeds and replaces the record, because
`createShortURL` never adds a custom shortcode to `usedShortcodes` (only
`generateShortcode` adds to that set), so `isShortcodeAvailable` still
reports `abc` as free. -/
theorem createShortURL_custom_not_reserved :
    createA1.1 = .ok recA ∧
    createA1.2.usedShortcodes.contains "abc" = false ∧
    createA2.1 = .ok (mkURLRecord envA "https://second.example" 30 "abc") ∧
    mapGet "abc" createA2.2.urls =
      some (mkURLRecord envA "https://second.example" 30 "abc") ∧
    (mkURLRecord envA "https://second.example" 30 "abc").originalUrl =
      "https://second.example" :=
  ⟨by decide, by decide, by decide, by decide, rfl⟩

/-- C5 (code bug): the four failure modes fire in the documented order
with distinct messages, and a successful creation builds the record with
`createdAt = now`, `expiresAt = now + validityMinutes·60000 ms`,
`clickCount = 0`, empty `clicks`, and inserts it into the live mapping
and `clickData` — but a custom shortcode is never inserted into the
all-time-assigned set (`usedShortcodes` stays empty below), contradicting
the claim's success clause.  Only generated codes reach the set, which is
why the shortcode-taken error does fire against a generated `aaaaaa`. -/
theorem createShortURL_success_eval :
    (createShortURL envA emptyState "ftp://x" 0 (some "!bad")).1 =
      .error invalidUrlMsg ∧
    (createShortURL envA emptyState "https://example.com" 0 (some "!bad")).1 =
      .error invalidValidityMsg ∧
    (createShortURL envA emptyState "https://example.com" (mkRat 3 2)
      (some "abc")).1 = .error invalidValidityMsg ∧
    (createShortURL envA emptyState "https://example.com" 30 (some "!bad")).1 =
      .error invalidShortcodeMsg ∧
    (createShortURL envA createG.2 "https://example.com" 30 (some "aaaaaa")).1 =
      .error shortcodeTakenMsg ∧
    createA1.1 = .ok (mkURLRecord envA "https://example.com" 30 "abc") ∧
    (mkURLRecord envA "https://example.com" 30 "abc").createdAt = .dateVal 0 ∧
    (mkURLRecord envA "https://example.com" 30 "abc").expiresAt =
      .dateVal (30 * 60 * 1000) ∧
    (mkURLRecord envA "https://example.com" 30 "abc").clickCount = 0 ∧
    (mkURLRecord envA "https://example.com" 30 "abc").clicks = [] ∧
    mapGet "abc" createA1.2.urls =
      some (mkURLRecord envA "https://example.com" 30 "abc") ∧
    mapGet "abc" createA1.2.clickData = some [] ∧
    createA1.2.usedShortcodes = [] :=
  ⟨by decide, by decide, by decide, by decide, by decide, by decide,
   by decide, by decide, rfl, rfl, by decide, by decide, by decide⟩

/-- C2 counterexample: a generated shortcode `aaaaaa` (which is in the
all-time-assigned set) expires and is cleaned up; contrary to the claim,
`cleanupExpiredURLs` also deletes it from `usedShortcodes`, and a
subsequent `createShortURL` with `aaaaaa` as custom code succeeds
instead of returning the shortcode-taken error. -/
theorem cleanup_unreserves_counterexample :
    createG.2.usedShortcodes.contains "aaaaaa" = true ∧
    mapGet "aaaaaa" stGclean.urls = none ∧
    stGclean.usedShortcodes.contains "aaaaaa" = false ∧
    (createShortURL envA stGclean "https://example.com" 30 (some "aaaaaa")).1 =
      .ok (mkURLRecord envA "https://example.com" 30 "aaaaaa") :=
  ⟨by decide, by decide, by decide, by decide⟩

/-- C2 amended: `cleanupExpiredURLs` removes from the live mapping
exactly the records whose `expiresAt` has passed, but each removed
shortcode is also deleted from the all-time-assigned set (so it becomes
available to a later `createShortURL` again). -/
theorem cleanupExpiredURLs_spec (nowMs : Nat) (st : RegState)
    (hn : (st.urls.map Prod.fst).Nodup) :
    (∀ sc r, mapGet sc st.urls = some r → jsGtTime nowMs r.expiresAt = true →
      mapGet sc (cleanupExpiredURLs nowMs st).urls = none ∧
      (cleanupExpiredURLs nowMs st).usedShortcodes.contains sc = false ∧
      isShortcodeAvailable (cleanupExpiredURLs nowMs st) sc = true) ∧
    (∀ sc r, mapGet sc st.urls = some r → jsGtTime nowMs r.expiresAt = false →
      mapGet sc (cleanupExpiredURLs nowMs st).urls = some r) ∧
    (∀ sc, mapGet sc st.urls = none →
      mapGet sc (cleanupExpiredURLs nowMs st).urls = none) := by
  refine ⟨?_, ?_, ?_⟩
  · intro sc r hget hexp
    have hcu : mapGet sc (cleanupExpiredURLs nowMs st).urls = none := by
      show mapGet sc (st.urls.filter fun p => !jsGtTime nowMs p.2.expiresAt) = none
      rw [mapGet_filter _ _ _ hn, hget]
      simp [hexp]
    have hused : (cleanupExpiredURLs nowMs st).usedShortcodes.contains sc = false := by
      show (st.usedShortcodes.filter fun s =>
          !((st.urls.filter fun p => jsGtTime nowMs p.2.expiresAt).map
              Prod.fst).contains s).contains sc = false
      rw [Bool.eq_false_iff]
      intro hcc
      have hq := (List.mem_filter.mp (List.elem_iff.mp hcc)).2
      rw [(expiredKeys_contains_iff nowMs st hn sc).mpr ⟨r, hget, hexp⟩] at hq
      simp at hq
    refine ⟨hcu, hused, ?_⟩
    show (!(cleanupExpiredURLs nowMs st).usedShortcodes.contains sc) = true
    rw [hused]
    rfl
  · intro sc r hget hexp
    show mapGet sc (st.urls.filter fun p => !jsGtTime nowMs p.2.expiresAt) = some r
    rw [mapGet_filter _ _ _ hn, hget]
    simp [hexp]
  · intro sc hget
    show mapGet sc (st.urls.filter fun p => !jsGtTime nowMs p.2.expiresAt) = none
    rw [mapGet_filter _ _ _ hn, hget]
    rfl

/-- Witness for the amended C2 at the concrete expired registry: the
expired `aaaaaa` record is gone from the live mapping after cleanup. -/
theorem cleanupExpiredURLs_spec_witness :
    mapGet "aaaaaa" (cleanupExpiredURLs 61000 createG.2).urls = none :=
  ((cleanupExpiredURLs_spec 61000 createG.2 (by decide)).1 "aaaaaa"
    (mkURLRecord envA "https://example.com" 1 "aaaaaa") (by decide) (by decide)).1

/-- C3 counterexample: saving and reloading a registry whose record was
created at `t = 0` does not reconstruct an equivalent state — the
`Date`-valued `createdAt` comes back as the plain ISO string
`1970-01-01T00:00:00.000Z`, because `JSON.stringify` serializes `Date`
objects to strings and `JSON.parse` never turns them back. -/
theorem saveLoad_counterexample :
    loadFromStorage (some (saveToStorage createG.2)) emptyState ≠ createG.2 ∧
    (mapGet "aaaaaa" (loadFromStorage (some (saveToStorage createG.2))
        emptyState).urls).map URLRecord.createdAt =
      some (.strVal "1970-01-01T00:00:00.000Z") ∧
    (mapGet "aaaaaa" createG.2.urls).map URLRecord.createdAt =
      some (.dateVal 0) :=
  ⟨by decide, by decide, by decide⟩

/-- C3 amended: `save()` then `load()` reconstructs the state exactly up
to timestamp representation: the same shortcode keys in the same order,
the same `originalUrl`s, click counts, click-history lengths, and the
same assigned-shortcode set, with every `Date`-valued
`createdAt`/`expiresAt`/click timestamp replaced by its ISO-8601
string. -/
theorem saveLoad_roundTrip (st stInit : RegState) :
    loadFromStorage (some (saveToStorage st)) stInit = stripState st ∧
    (stripState st).usedShortcodes = st.usedShortcodes ∧
    (stripState st).urls.map Prod.fst = st.urls.map Prod.fst ∧
    ((stripState st).urls.map fun p => p.2.clickCount) =
      (st.urls.map fun p => p.2.clickCount) ∧
    ((stripState st).urls.map fun p => p.2.originalUrl) =
      (st.urls.map fun p => p.2.originalUrl) ∧
    ((stripState st).clickData.map fun p => p.2.length) =
      (st.clickData.map fun p => p.2.length) := by
  refine ⟨?_, rfl, ?_, ?_, ?_, ?_⟩
  · show (decodeState (encodeState st)).getD stInit = stripState st
    rw [decodeState_encodeState]
    rfl
  · exact keys_mapVal _ _
  · show ((st.urls.map fun p => (p.1, stripRecord p.2)).map
        fun p => p.2.clickCount) = _
    rw [List.map_map]
    rfl
  · show ((st.urls.map fun p => (p.1, stripRecord p.2)).map
        fun p => p.2.originalUrl) = _
    rw [List.map_map]
    rfl
  · show ((st.clickData.map fun p => (p.1, p.2.map stripClick)).map
        fun p => p.2.length) = _
    rw [List.map_map]
    simp [Function.comp_def]

/-! ## Characterizing the generation loop -/

theorem contains_setAdd_self (x : String) (s : List String) :
    (setAdd x s).contains x = true := by
  rw [setAdd]
  by_cases hc : s.contains x = true
  · rw [if_pos hc]
    exact hc
  · rw [if_neg hc]
    rw [List.elem_iff]
    exact List.mem_append_right _ (List.mem_singleton.mpr rfl)

/-- If the samples drawn at positions `made` through `98` all collide
with the used set, the loop runs its 100 attempts out. -/
theorem genScan_fallback (rand : Nat → Fin 62) (used : List String) :
    ∀ fuel made, made + fuel = 100 →
    (∀ i, made ≤ i → i < 99 → used.contains (sampleCode rand (6 * i)) = true) →
    (genScan rand used fuel made).1 = 100 := by
  intro fuel
  induction fuel with
  | zero =>
      intro made h hall
      simp only [genScan]
      omega
  | succ fuel ih =>
      intro made h hall
      simp only [genScan]
      by_cases hm : made + 1 < 100
      · have hc : used.contains (sampleCode rand (6 * made)) = true :=
          hall made le_rfl (by omega)
        rw [hc]
        simp only [Bool.true_and, decide_eq_true hm, if_true]
        exact ih (made + 1) (by omega) (fun i hi1 hi2 => hall i (by omega) hi2)
      · have hd : decide (made + 1 < 100) = false := decide_eq_false hm
        rw [hd, Bool.and_false]
        simp only [Bool.false_eq_true, if_false]
        omega

/-- If `k` is the first position at or after `made` whose sample is
fresh, and `k < 99`, the loop stops there and returns that sample with
`attempts = k + 1`. -/
theorem genScan_first_fresh (rand : Nat → Fin 62) (used : List String) :
    ∀ fuel made k, made + fuel = 100 → made ≤ k → k < 99 →
    used.contains (sampleCode rand (6 * k)) = false →
    (∀ j, made ≤ j → j < k → used.contains (sampleCode rand (6 * j)) = true) →
    genScan rand used fuel made = (k + 1, sampleCode rand (6 * k)) := by
  intro fuel
  induction fuel with
  | zero =>
      intro made k h hmk hk hfresh hmin
      omega
  | succ fuel ih =>
      intro made k h hmk hk hfresh hmin
      simp only [genScan]
      by_cases hek : made = k
      · subst hek
        rw [hfresh]
        rfl
      · have hlt : made < k := lt_of_le_of_ne hmk hek
        have hc := hmin made le_rfl hlt
        rw [hc]
        have hm : made + 1 < 100 := by omega
        simp only [Bool.true_and, decide_eq_true hm, if_true]
        exact ih (made + 1) k (by omega) (by omega) hk hfresh
          (fun j hj1 hj2 => hmin j (by omega) hj2)

/-- C6 counterexample: with the used set `aaaaaa` and a random stream
whose first 99 samples are `aaaaaa` but whose 100th sample is the fresh
code `bbbbbb`, `generateShortcode` still returns the timestamp fallback
`url0` — so the fallback is not taken exactly when all attempts collide:
the 100th sample is drawn and discarded without its freshness being
consulted. -/
theorem generateShortcode_fallback_counterexample :
    sampleCode (fun i => if i < 594 then (26 : Fin 62) else 27) (6 * 99) =
      "bbbbbb" ∧
    (RegState.mk [] [] ["aaaaaa"]).usedShortcodes.contains "bbbbbb" = false ∧
    (generateShortcode (fun i => if i < 594 then (26 : Fin 62) else 27) 0
      (RegState.mk [] [] ["aaaaaa"])).1 = "url0" :=
  ⟨by decide, by decide, by decide⟩

/-- C6 amended: `generateShortcode` draws 6-character samples from the
62-character alphanumeric alphabet; the chosen code is added to the
all-time-assigned set before returning and nothing else in the state
changes; it returns the timestamp fallback `url` + base-36 now exactly
when the first 99 samples all collide with the set (a 100th sample is
drawn but discarded unexamined), and otherwise returns the first fresh
sample among the first 99. -/
theorem generateShortcode_spec (rand : Nat → Fin 62) (nowMs : Nat)
    (st : RegState) :
    (generateShortcode rand nowMs st).2.usedShortcodes.contains
      (generateShortcode rand nowMs st).1 = true ∧
    (generateShortcode rand nowMs st).2.urls = st.urls ∧
    (generateShortcode rand nowMs st).2.clickData = st.clickData ∧
    (∀ b, (sampleCode rand b).length = 6 ∧
      ∀ c ∈ (sampleCode rand b).toList, isAlphanumChar c = true) ∧
    (if ((List.range 99).all fun i =>
          st.usedShortcodes.contains (sampleCode rand (6 * i)))
     then (generateShortcode rand nowMs st).1 = "url" ++ base36 nowMs
     else ∃ k, k < 99 ∧
       (generateShortcode rand nowMs st).1 = sampleCode rand (6 * k) ∧
       st.usedShortcodes.contains (sampleCode rand (6 * k)) = false ∧
       ∀ j, j < k → st.usedShortcodes.contains (sampleCode rand (6 * j)) = true) := by
  have hcode : (generateShortcode rand nowMs st).1 =
      if 100 ≤ (genScan rand st.usedShortcodes 100 0).1 then "url" ++ base36 nowMs
      else (genScan rand st.usedShortcodes 100 0).2 := rfl
  have hused : (generateShortcode rand nowMs st).2.usedShortcodes =
      setAdd (generateShortcode rand nowMs st).1 st.usedShortcodes := rfl
  refine ⟨?_, rfl, rfl, ?_, ?_⟩
  · rw [hused]
    exact contains_setAdd_self _ _
  · intro b
    constructor
    · simp [sampleCode]
    · intro c hc
      have haln : ∀ c ∈ shortcodeAlphabet.toList, isAlphanumChar c = true := by
        decide
      obtain ⟨i, hi, rfl⟩ := List.mem_map.mp hc
      have hlt : (rand (b + i)).val < shortcodeAlphabet.toList.length :=
        (rand (b + i)).isLt
      rw [List.getD_eq_getElem _ _ hlt]
      exact haln _ (List.getElem_mem hlt)
  · by_cases hall : ((List.range 99).all fun i =>
        st.usedShortcodes.contains (sampleCode rand (6 * i))) = true
    · rw [if_pos hall]
      have h100 : (genScan rand st.usedShortcodes 100 0).1 = 100 :=
        genScan_fallback rand st.usedShortcodes 100 0 rfl (fun i h0 hi =>
          List.all_eq_true.mp hall i (List.mem_range.mpr hi))
      rw [hcode, h100, if_pos le_rfl]
    · rw [if_neg hall]
      have hex : ∃ i, i < 99 ∧
          st.usedShortcodes.contains (sampleCode rand (6 * i)) = false := by
        by_contra hno
        push_neg at hno
        apply hall
        rw [List.all_eq_true]
        intro i hi
        have hi' := List.mem_range.mp hi
        have := hno i hi'
        exact Bool.not_eq_false _ |>.mp this
      classical
      obtain ⟨hk, hfresh⟩ := Nat.find_spec hex
      refine ⟨Nat.find hex, hk, ?_, hfresh, ?_⟩
      · have hscan := genScan_first_fresh rand st.usedShortcodes 100 0
          (Nat.find hex) rfl (Nat.zero_le _) hk hfresh (fun j h0 hj => ?_)
        · rw [hcode, hscan]
          have : ¬100 ≤ Nat.find hex + 1 := by omega
          rw [if_neg this]
        · have hnot := Nat.find_min hex hj
          push_neg at hnot
          have := hnot (by omega)
          exact Bool.not_eq_false _ |>.mp this
      · intro j hj
        have hnot := Nat.find_min hex hj
        push_neg at hnot
        have := hnot (by omega)
        exact Bool.not_eq_false _ |>.mp this

/-- Witness for the amended C6: a stream that always yields `a` against
a set already holding `aaaaaa` exhausts the 100 attempts and falls back
to `url0` at time 0. -/
theorem generateShortcode_spec_witness :
    (generateShortcode (fun _ => (26 : Fin 62)) 0
      (RegState.mk [] [] ["aaaaaa"])).1 = "url" ++ base36 0 := by
  have h := (generateShortcode_spec (fun _ => (26 : Fin 62)) 0
    (RegState.mk [] [] ["aaaaaa"])).2.2.2.2
  rw [if_pos (by decide)] at h
  exact h

end UrlService
